import Mathlib

/-!
Shallow embedding of the Media Restructure Engine from `src/restructure.rs`
(telegram-torrent-bot). Filesystem state is modelled as an explicit value (a
list of existing file paths plus a canonicalization map), the external
`guessit` oracle as a function argument, and paths as Unix-style strings
(no `.`/`..` normalization, which never arises in this code's paths).
Machine integers are modelled as `Nat` with explicit truncation where the
source casts.
-/

/-- Whitespace test on a char, modelling Rust's char::is_whitespace on the
ASCII range (the only range exercised by the reply grammar). -/
def isWS (c : Char) : Bool :=
  c == ' ' || c == '\t' || c == '\n' || c == '\r'

/-- ASCII lowercase of one char, modelling Rust str::to_lowercase on the
ASCII range. -/
def lowerChar (c : Char) : Char :=
  if 65 ≤ c.toNat ∧ c.toNat ≤ 90 then Char.ofNat (c.toNat + 32) else c

/-- ASCII digit test (Rust u8::is_ascii_digit / char::to_digit(10)). -/
def isDigitChar (c : Char) : Bool :=
  48 ≤ c.toNat && c.toNat ≤ 57

/-- Model of Rust str::trim on the char list of a string. -/
def trimChars (l : List Char) : List Char :=
  ((l.dropWhile isWS).reverse.dropWhile isWS).reverse

/-- Model of Rust str::to_lowercase on the char list of a string. -/
def lowerChars (l : List Char) : List Char :=
  l.map lowerChar

/-- Accumulator-based splitter: model of Rust str::split_whitespace
(tokens between whitespace runs, empties dropped). -/
def splitWSAux : List Char → List Char → List (List Char)
  | [], acc => if acc = [] then [] else [acc.reverse]
  | c :: rest, acc =>
    if isWS c then
      if acc = [] then splitWSAux rest [] else acc.reverse :: splitWSAux rest []
    else
      splitWSAux rest (c :: acc)

def splitWS (l : List Char) : List (List Char) :=
  splitWSAux l []

/-- Byte-lexicographic order on strings (Rust `String: Ord`; on ASCII data
this agrees with Lean's `String.le`). -/
def charListLe : List Char → List Char → Bool
  | [], _ => true
  | _ :: _, [] => false
  | a :: as, b :: bs =>
    if a.toNat < b.toNat then true
    else if a.toNat = b.toNat then charListLe as bs
    else false

def strLe (a b : String) : Bool :=
  charListLe a.data b.data

/-- Model of `Vec<String>::sort()` (stable ascending sort; a stable sort's
output is unique, so insertion sort is extensionally the same function). -/
def sortStrings (l : List String) : List String :=
  l.insertionSort (fun a b => strLe a b)

/-- Model of `Vec<u32>::sort()`. -/
def sortNats (l : List Nat) : List Nat :=
  l.insertionSort (· ≤ ·)

/-- Model of `Vec::dedup()`: collapse consecutive duplicates. -/
def dedupConsec : List Nat → List Nat
  | [] => []
  | [a] => [a]
  | a :: b :: rest => if a = b then dedupConsec (b :: rest) else a :: dedupConsec (b :: rest)

/-- Model of Rust `usize::from_str` on a token: optional leading `+`, then
one or more ASCII digits, rejecting values that overflow 64 bits. -/
def parseUsize (tok : List Char) : Option Nat :=
  let digits := if tok.head? = some '+' then tok.tail else tok
  if digits = [] then none
  else if digits.all isDigitChar then
    let v := digits.foldl (fun acc c => acc * 10 + (c.toNat - 48)) 0
    if v < 2 ^ 64 then some v else none
  else none

/-- Two-digit zero padding, modelling Rust `format!("\x7b:02\x7d", n)`. -/
def pad2 (n : Nat) : String :=
  if n < 10 then "0" ++ toString n else toString n

/-! ## Path model (Unix-style strings) -/

/-- Model of `Path::join` / `PathBuf::push` for Unix paths: an absolute
right side replaces the left, an empty left side yields the right, and a
separator is inserted unless one is already present. -/
def pathJoin (p q : String) : String :=
  if q.data.head? = some '/' then q
  else if p.data = [] then q
  else if p.data.getLast? = some '/' then p ++ q
  else p ++ "/" ++ q

/-- Model of `Path::parent`: strip the final component.  Returns none for
the root and the empty path, `some ""` for a single relative component,
`some "/"` directly under the root. -/
def parentPath (p : String) : Option String :=
  if p.data = [] ∨ p.data = ['/'] then none
  else
    match p.data.reverse.dropWhile (· ≠ '/') with
    | [] => some ""
    | ['/'] => some "/"
    | _ :: more => some (String.mk more.reverse)

/-- Model of `Path::file_name`: the final component (none for the root,
the empty path, or a `..` tail). -/
def fileName (p : String) : Option String :=
  let comp := p.data.reverse.takeWhile (· ≠ '/')
  if comp = [] ∨ comp.reverse = ['.', '.'] then none
  else some (String.mk comp.reverse)

/-- Split a file name at its last dot the way Rust's `Path::file_stem` /
`Path::extension` do: no dot, or only a leading dot, means no extension. -/
def splitAtLastDot (name : List Char) : List Char × Option (List Char) :=
  match name.reverse.dropWhile (· ≠ '.') with
  | [] => (name, none)
  | '.' :: before =>
    if before = [] then (name, none)
    else (before.reverse, some (name.reverse.takeWhile (· ≠ '.')).reverse)
  | _ :: _ => (name, none)

/-- Model of `Path::file_stem`. -/
def fileStem (p : String) : Option String :=
  (fileName p).map (fun n => String.mk (splitAtLastDot n.data).1)

/-- Model of `Path::extension`. -/
def extOf (p : String) : Option String :=
  (fileName p).bind (fun n => ((splitAtLastDot n.data).2).map String.mk)

/-- The extension with a leading dot, as the source repeatedly builds with
`format!(".\x7b\x7d", ext)`. -/
def extWithDot (p : String) : Option String :=
  (extOf p).map (fun e => "." ++ e)

/-! ## Data model -/

/-- `Media` from `transmission.rs`. -/
inductive Media where
  | tv
  | movie
deriving DecidableEq, Repr

/-- A JSON value as far as `GuessitMetadata::episodes` inspects it: a
number carries its `as_u64` view (none for negative or fractional
numbers); an array carries the `as_u64` view of each element (none for a
non-numeric element); everything else is `other`. -/
inductive JsonVal where
  | num (asU64 : Option Nat)
  | arr (elems : List (Option Nat))
  | other
deriving DecidableEq, Repr

/-- `GuessitMetadata` from `restructure.rs`. -/
structure GuessitMetadata where
  title : String
  year : Option Int
  season : Option Nat
  episode : Option JsonVal
  extension : String
deriving DecidableEq, Repr

/-- `GuessitMetadata::episodes`: normalize the `episode` field into a list
of episode numbers (`as u32` truncates, modelled by `% 2 ^ 32`). -/
def GuessitMetadata.episodes (m : GuessitMetadata) : List Nat :=
  match m.episode with
  | some (.num o) =>
    match o with
    | some ep => [ep % 2 ^ 32]
    | none => []
  | some (.arr elems) => elems.filterMap (fun o => o.map (· % 2 ^ 32))
  | _ => []

/-- `MoveOperation` from `restructure.rs`. -/
structure MoveOperation where
  source_path : String
  target_path : String
  display_name : String
  is_subtitle : Bool
deriving DecidableEq, Repr

/-- `RestructurePlan` from `restructure.rs`. -/
structure RestructurePlan where
  media_type : Media
  operations : List MoveOperation
  unparseable_files : List String
deriving DecidableEq, Repr

def VIDEO_EXTENSIONS : List String :=
  [".mkv", ".mp4", ".avi", ".mov", ".wmv", ".flv", ".webm", ".m4v"]

def SUBTITLE_EXTENSIONS : List String :=
  [".srt", ".sub", ".ass", ".ssa", ".vtt"]

/-! ## Filesystem model -/

/-- The filesystem as observed by the planner: the set of existing regular
files (claim-level model: a set of existing paths) plus the symlink-aware
`fs::canonicalize` as an abstract partial map. -/
structure FSEnv where
  files : List String
  canonicalize : String → Option String

def FSEnv.isFile (env : FSEnv) (p : String) : Bool :=
  env.files.contains p

/-- A directory exists when some existing file lives strictly below it. -/
def FSEnv.isDir (env : FSEnv) (p : String) : Bool :=
  env.files.any (fun f => (p.data ++ ['/']).isPrefixOf f.data)

/-- `Path::exists`. -/
def FSEnv.pathExists (env : FSEnv) (p : String) : Bool :=
  env.isFile p || env.isDir p

/-- `fs::read_dir` restricted to regular files: the existing files whose
parent is exactly this directory. -/
def FSEnv.readDirFiles (env : FSEnv) (d : String) : List String :=
  env.files.filter (fun f => parentPath f = some d)

/-- `fs::canonicalize(p).unwrap_or(p)` as used by the idempotence guard. -/
def FSEnv.canonOr (env : FSEnv) (p : String) : String :=
  (env.canonicalize p).getD p

/-- Split a char list at every `/`. -/
def splitSlashAux : List Char → List Char → List (List Char)
  | [], acc => [acc.reverse]
  | c :: rest, acc =>
    if c = '/' then acc.reverse :: splitSlashAux rest []
    else splitSlashAux rest (c :: acc)

/-- The `/`-separated components of a (relative) path's char list. -/
def componentsOf (l : List Char) : List (List Char) :=
  splitSlashAux l []

/-! ## Core functions of `restructure.rs` -/

/-- `sanitize_filename`: replace characters invalid in file names by `-`. -/
def sanitize_filename (name : String) : String :=
  String.mk (name.data.map (fun c =>
    if c = '/' ∨ c = '\\' ∨ c = ':' ∨ c = '*' ∨ c = '?' ∨ c = '"' ∨ c = '<' ∨ c = '>' ∨ c = '|'
    then '-' else c))

/-- `generate_tv_path`: `\x7bbase\x7d/\x7btitle\x7d/Season SS/\x7btitle\x7d - SssEee\x7bext\x7d`. -/
def generate_tv_path (base : String) (metadata : GuessitMetadata) : Except String String :=
  match metadata.season with
  | none => .error "TV show missing season number"
  | some season =>
  let episodes := metadata.episodes
  if episodes = [] then
    .error "TV show missing episode number"
  else
    let title := sanitize_filename metadata.title
    let season_str := pad2 season
    let sorted_episodes := sortNats episodes
    let episode_str :=
      if sorted_episodes.length = 1 then
        "E" ++ pad2 (sorted_episodes.headI)
      else
        String.intercalate "-" (sorted_episodes.map (fun e => "E" ++ pad2 e))
    let filename := title ++ " - S" ++ season_str ++ episode_str ++ metadata.extension
    .ok (pathJoin (pathJoin (pathJoin base title) ("Season " ++ season_str)) filename)

/-- `generate_movie_path`: `\x7bbase\x7d/\x7bfolder\x7d/\x7bfolder\x7d\x7bext\x7d` with
`folder = title (year)` when a year is present. -/
def generate_movie_path (base : String) (metadata : GuessitMetadata) : Except String String :=
  let title := sanitize_filename metadata.title
  let folder_name := match metadata.year with
    | some year => title ++ " (" ++ toString year ++ ")"
    | none => title
  let filename := folder_name ++ metadata.extension
  .ok (pathJoin (pathJoin base folder_name) filename)

/-- The `i`-th collision candidate `\x7bstem\x7d-\x7bi\x7d.\x7bext\x7d` built by
`resolve_collision` from the occupied target path. -/
def collisionCandidate (target_path : String) (i : Nat) : String :=
  let parent := (parentPath target_path).getD ""
  let file_stem := (fileStem target_path).getD ""
  let extension := (extOf target_path).getD ""
  let new_name :=
    if extension = "" then file_stem ++ "-" ++ toString i
    else file_stem ++ "-" ++ toString i ++ "." ++ extension
  pathJoin parent new_name

/-- `resolve_collision`: return the target unchanged when it is free,
otherwise the first free `\x7bstem\x7d-\x7bi\x7d\x7bext\x7d` for `i` in `1..=100`,
falling back to the original target when all are taken. -/
def resolve_collision (env : FSEnv) (target_path : String) : String :=
  if env.pathExists target_path = false then target_path
  else
    match (List.range' 1 100).find? (fun i => !env.pathExists (collisionCandidate target_path i)) with
    | some i => collisionCandidate target_path i
    | none => target_path

/-- `find_matching_subtitles`: files of the video's parent directory kept
by the loop's filters (note the source only rejects on extension when an
extension is present), sorted. -/
def find_matching_subtitles (env : FSEnv) (video_path : String) : List String :=
  match parentPath video_path, fileStem video_path with
  | some parent, some video_stem =>
    sortStrings ((env.readDirFiles parent).filter (fun p =>
      env.isFile p
      && (match extWithDot p with
          | some e => SUBTITLE_EXTENSIONS.contains e
          | none => true)
      && (match fileName p with
          | some n => video_stem.data.isPrefixOf n.data
          | none => false)))
  | _, _ => []

/-- `call_guessit`: the oracle's parsed output with the `extension` field
overridden from the actual source path (default `.mkv`). -/
def call_guessit (oracle : String → Except String GuessitMetadata)
    (file_path : String) : Except String GuessitMetadata :=
  (oracle file_path).map (fun m =>
    { m with extension := (extWithDot file_path).getD ".mkv" })

/-- `scan_files_recursive`: the sorted existing files under the root whose
extension is in the set, skipping any file or directory whose name starts
with a dot.  (The source walks the tree recursively; over the path-set
filesystem model the walk's result is exactly this filter.) -/
def scan_files_recursive (env : FSEnv) (dir : String) (exts : List String) :
    Except String (List String) :=
  if ¬ env.pathExists dir then
    .error ("Directory does not exist: " ++ dir)
  else if ¬ env.isDir dir then
    .error ("Path is not a directory: " ++ dir)
  else
    .ok (sortStrings (env.files.filter (fun f =>
      (dir.data ++ ['/']).isPrefixOf f.data
      && (componentsOf (f.data.drop (dir.data.length + 1))).all
           (fun comp => comp.head? ≠ some '.')
      && (match extWithDot f with
          | some e => exts.contains e
          | none => false))))

/-! ## Plan builder -/

/-- The subtitle `MoveOperation` built for one matched subtitle file:
original file name, targeted into the final video target's directory,
independently collision-resolved. -/
def subtitleOp (env : FSEnv) (final_target : String) (sub_path : String) : MoveOperation :=
  let sub_name := (fileName sub_path).getD sub_path
  let target_dir := (parentPath final_target).getD ""
  let sub_target := resolve_collision env (pathJoin target_dir sub_name)
  { source_path := sub_path
    target_path := sub_target
    display_name := sub_name
    is_subtitle := true }

/-- The per-kind target path dispatch inside the plan builder. -/
def gen_target_path (media : Media) (base_path : String) (metadata : GuessitMetadata) :
    Except String String :=
  match media with
  | .tv => generate_tv_path base_path metadata
  | .movie => generate_movie_path base_path metadata

/-- Per-file planning step of `generate_restructure_plan`: `none` means the
file goes to `unparseable_files`; `some []` means it is skipped by the
idempotence guard; otherwise the emitted video operation followed by its
subtitle operations. -/
def file_plan_ops (env : FSEnv) (oracle : String → Except String GuessitMetadata)
    (media : Media) (base_path : String) (file_path : String) :
    Option (List MoveOperation) :=
  match call_guessit oracle file_path with
  | .error _ => none
  | .ok metadata =>
    match gen_target_path media base_path metadata with
    | .error _ => none
    | .ok target_path =>
      if env.canonOr file_path = env.canonOr target_path then some []
      else
        let final_target := resolve_collision env target_path
        let display_name := (fileName file_path).getD file_path
        let video_op : MoveOperation :=
          { source_path := file_path
            target_path := final_target
            display_name := display_name
            is_subtitle := false }
        some (video_op :: (find_matching_subtitles env file_path).map (subtitleOp env final_target))

/-- One iteration of the plan builder's accumulation loop. -/
def plan_step (env : FSEnv) (oracle : String → Except String GuessitMetadata)
    (media : Media) (base_path : String)
    (acc : List MoveOperation × List String) (file_path : String) :
    List MoveOperation × List String :=
  match file_plan_ops env oracle media base_path file_path with
  | none => (acc.1, acc.2 ++ [file_path])
  | some ops => (acc.1 ++ ops, acc.2)

/-- The body of `generate_restructure_plan` after scanning.  The source
processes files in batches of ten concurrent oracle calls but reassembles
each batch's results in file order before consuming them, so the
accumulated output is the in-order fold over the scanned file list. -/
def plan_from_files (env : FSEnv) (oracle : String → Except String GuessitMetadata)
    (media : Media) (base_path : String) (video_files : List String) :
    RestructurePlan :=
  let r := video_files.foldl (plan_step env oracle media base_path) ([], [])
  { media_type := media, operations := r.1, unparseable_files := r.2 }

/-- `generate_restructure_plan`: scan, then build the plan (empty scan
short-circuits to an empty plan). -/
def generate_restructure_plan (env : FSEnv)
    (oracle : String → Except String GuessitMetadata)
    (media : Media) (base_path : String) : Except String RestructurePlan :=
  match scan_files_recursive env base_path VIDEO_EXTENSIONS with
  | .error e => .error e
  | .ok video_files =>
    if video_files = [] then
      .ok { media_type := media, operations := [], unparseable_files := [] }
    else
      .ok (plan_from_files env oracle media base_path video_files)

/-! ## Plan presenter -/

/-- The target path shortened to its last two components, modelling
`strip_prefix(ancestors().nth(2).unwrap_or(""))` with its fallbacks. -/
def target_display (p : String) : String :=
  match parentPath p with
  | none => p
  | some p1 =>
    match parentPath p1 with
    | none => p
    | some gp =>
      if gp = "" then p
      else if gp.data.getLast? = some '/' then String.mk (p.data.drop gp.data.length)
      else String.mk (p.data.drop (gp.data.length + 1))

/-- The presenter's operation loop: number video entries, indent subtitle
entries under their video, truncate at fifty numbered entries.  The flag
records whether a numbered video entry was just rendered (the source
expresses this as an inner loop consuming the subtitle run). -/
def format_ops : List MoveOperation → Nat → Bool → String
  | [], _, _ => ""
  | op :: rest, current_index, in_group =>
    if op.is_subtitle then
      (if in_group then "      + " ++ op.display_name ++ "\n" else "")
        ++ format_ops rest current_index in_group
    else
      let idx := current_index + 1
      if idx > 50 then
        "\n... and " ++ toString (rest.length + 1) ++ " more operations (showing first 50)\n"
      else
        toString idx ++ ". " ++ op.display_name ++ "\n   → " ++ target_display op.target_path
          ++ "\n" ++ format_ops rest idx true

def media_emoji (m : Media) : String :=
  match m with
  | .tv => "📺"
  | .movie => "🎬"

/-- The presenter's unparseable-files section: up to twenty file names
with a remainder count. -/
def unparse_section (unparseable_files : List String) : String :=
  if unparseable_files = [] then ""
  else
    "\n⚠️ Unparseable files (will be skipped):\n"
      ++ String.join ((unparseable_files.take 20).map (fun file =>
           "  • " ++ ((fileName file).getD file) ++ "\n"))
      ++ (if unparseable_files.length > 20 then
            "  ... and " ++ toString (unparseable_files.length - 20) ++ " more\n"
          else "")

/-- The fixed instruction footer. -/
def reply_footer : String :=
  "\nReply with:\n• \"apply all\" - Execute all operations\n• \"apply 1 2 5\" - Execute specific operations\n• \"cancel\" - Cancel restructure\n"

/-- `format_restructure_plan`. -/
def format_restructure_plan (plan : RestructurePlan) : String :=
  if plan.operations = [] ∧ plan.unparseable_files = [] then "✅ Nothing to restructure"
  else
    media_emoji plan.media_type ++ " Restructure Plan:\n\n"
      ++ format_ops plan.operations 0 false
      ++ unparse_section plan.unparseable_files ++ reply_footer

/-! ## Reply interpreter -/

/-- Parse every index token, failing on the first token that is not a
valid integer (`Invalid number`). -/
def parseTokens : List (List Char) → Except String (List Nat)
  | [] => .ok []
  | t :: rest =>
    match parseUsize t with
    | some n => (parseTokens rest).map (fun l => n :: l)
    | none => .error ("Invalid number: " ++ String.mk t)

/-- The interpreter's selection loop: walk the operations, number each
video, and keep a video with its contiguous subtitle run when its number
was requested.  Returns the selection and the final video count.  The flag
records whether the current subtitle run is being kept (the source
expresses this as inner loops consuming the run). -/
def select_loop (indices : List Nat) : List MoveOperation → Nat → Bool →
    List MoveOperation × Nat
  | [], current_index, _ => ([], current_index)
  | op :: rest, current_index, taking =>
    if op.is_subtitle then
      let r := select_loop indices rest current_index taking
      (if taking then op :: r.1 else r.1, r.2)
    else
      let idx := current_index + 1
      let sel := indices.contains idx
      let r := select_loop indices rest idx sel
      (if sel then op :: r.1 else r.1, r.2)

/-- `parse_restructure_reply`. -/
def parse_restructure_reply (reply_text : String) (plan : RestructurePlan) :
    Except String (List MoveOperation) :=
  let reply := lowerChars (trimChars reply_text.data)
  if reply = "cancel".data then .error "Restructure cancelled"
  else if reply = "apply all".data ∨ reply = "apply".data then .ok plan.operations
  else if "apply ".data.isPrefixOf reply then
    match parseTokens (splitWS (trimChars (reply.drop 6))) with
    | .error msg => .error msg
    | .ok raw =>
      let indices := dedupConsec (sortNats raw)
      let r := select_loop indices plan.operations 0 false
      let selected_ops := r.1
      let max_index := r.2
      if selected_ops = [] then .error "No valid operations selected"
      else
        match indices.find? (fun idx => idx == 0 || decide (max_index < idx)) with
        | some idx =>
          .error ("Index " ++ toString idx ++ " out of range (1-" ++ toString max_index ++ ")")
        | none => .ok selected_ops
  else .error "Invalid reply. Use 'apply all', 'apply 1 2 5', or 'cancel'"

/-! ## Move executor -/

/-- Outcome of the `fs::rename` attempt for one operation; an error
records whether it satisfies the source's cross-device test
(`raw_os_error == 18 || kind == Other`). -/
inductive RenameResult where
  | ok
  | err (cross_device : Bool) (msg : String)
deriving DecidableEq, Repr

/-- The filesystem's answers to the four syscalls `execute_moves` may
issue for one operation. -/
structure SysCall where
  mkdir : Except String Unit
  rename : RenameResult
  copy : Except String Unit
  remove : Except String Unit

/-- The executor's loop body for one operation: create the target's
parent directory, try rename, fall back to copy-then-delete on a
cross-device error; yields the success increment and the itemized error
lines (at most one) this operation contributes. -/
def exec_op (sys : MoveOperation → SysCall) (op : MoveOperation) : Nat × List String :=
  let s := sys op
  let mkdirFail : Option String :=
    match parentPath op.target_path with
    | some _ =>
      match s.mkdir with
      | .error e => some e
      | .ok _ => none
    | none => none
  match mkdirFail with
  | some e => (0, [op.display_name ++ ": Failed to create directory - " ++ e])
  | none =>
    match s.rename with
    | .ok => (1, [])
    | .err cross msg =>
      if cross then
        match s.copy with
        | .ok _ =>
          match s.remove with
          | .ok _ => (1, [])
          | .error del_err =>
            (0, [op.display_name ++ ": Copied but failed to delete source - " ++ del_err])
        | .error copy_err =>
          (0, [op.display_name ++ ": Failed to copy - " ++ copy_err])
      else
        (0, [op.display_name ++ ": Failed to move - " ++ msg])

/-- Accumulating form of the loop body (`success_count += ...;
errors.extend(...)`). -/
def execute_step (sys : MoveOperation → SysCall) (acc : Nat × List String)
    (op : MoveOperation) : Nat × List String :=
  ((acc.1 + (exec_op sys op).1), acc.2 ++ (exec_op sys op).2)

/-- The final summary text built by `execute_moves`. -/
def exec_summary (success_count total : Nat) (errors : List String) : String :=
  let summary := "✅ Restructuring complete!\n• " ++ toString success_count ++ "/"
    ++ toString total ++ " files moved"
  if errors = [] then summary
  else
    summary ++ "\n• " ++ toString errors.length ++ " errors:\n"
      ++ String.join ((errors.take 10).map (fun e => "  - " ++ e ++ "\n"))
      ++ (if errors.length > 10 then
            "  ... and " ++ toString (errors.length - 10) ++ " more errors\n"
          else "")

/-- `execute_moves`: best-effort loop over all operations, then a summary
that is a hard failure exactly when no operation succeeded. -/
def execute_moves (sys : MoveOperation → SysCall) (operations : List MoveOperation) :
    Except String String :=
  let r := operations.foldl (execute_step sys) (0, [])
  let result := exec_summary r.1 operations.length r.2
  if r.1 = 0 then .error result else .ok result

deriving instance DecidableEq for Except

/-! ## Concrete scenario data and spec-side definitions used by the claims -/

/-- The episode tag as the specification words it, taking the
ascending-sorted episode list: `Eee` for a single episode, the tags joined
with `-` otherwise. -/
def episodeTagSpec (sorted : List Nat) : String :=
  if sorted.length = 1 then "E" ++ pad2 sorted.headI
  else String.intercalate "-" (sorted.map (fun e => "E" ++ pad2 e))

/-- The scenario filesystem: a scan root holding the video and its
language-suffixed subtitle companion. -/
def c7_files : List String := ["/dl/Show.S01E01.en.srt", "/dl/Show.S01E01.mkv"]

def c7_env : FSEnv :=
  { files := c7_files
    canonicalize := fun p => if c7_files.contains p then some p else none }

/-- The oracle answer for the scenario's video file. -/
def c7_oracle : String → Except String GuessitMetadata := fun p =>
  if p = "/dl/Show.S01E01.mkv" then
    .ok { title := "Show", year := none, season := some 1,
          episode := some (.num (some 1)), extension := "" }
  else .error "guessit failed"

/-- The C8 witness scenario: two scanned videos, oracle timeout on one. -/
def c8_files : List String := ["/dl/Bad.File.mkv", "/dl/Show.S01E01.mkv"]

def c8_env : FSEnv :=
  { files := c8_files
    canonicalize := fun p => if c8_files.contains p then some p else none }

def c8_oracle : String → Except String GuessitMetadata := fun p =>
  if p = "/dl/Show.S01E01.mkv" then
    .ok { title := "Show", year := none, season := some 1,
          episode := some (.num (some 1)), extension := "" }
  else .error "guessit command timed out after 5 seconds"

/-- The C9 witness system: one clean rename, one cross-device copy whose
source deletion then fails. -/
def c9_sys : MoveOperation → SysCall := fun op =>
  if op.display_name = "b.mkv" then
    { mkdir := .ok (), rename := .err true "cross-device link",
      copy := .ok (), remove := .error "permission denied" }
  else
    { mkdir := .ok (), rename := .ok, copy := .ok (), remove := .ok () }

def c9_opA : MoveOperation :=
  { source_path := "/dl/a.mkv", target_path := "/t/a.mkv",
    display_name := "a.mkv", is_subtitle := false }

def c9_opB : MoveOperation :=
  { source_path := "/dl/b.mkv", target_path := "/t/b.mkv",
    display_name := "b.mkv", is_subtitle := false }

/-- Spec-side view of the interpreter's selection: walking the groups in
order, group number `cur + 1`, `cur + 2`, ..., keeping the flattened
groups whose number is requested. -/
def selectedGroups (indices : List Nat) :
    List (MoveOperation × List MoveOperation) → Nat → List MoveOperation
  | [], _ => []
  | g :: rest, cur =>
    (if indices.contains (cur + 1) then g.1 :: g.2 else [])
      ++ selectedGroups indices rest (cur + 1)

/-- Spec-side rendering of one numbered video entry with its indented
subtitle lines, following the specification's description of the
presenter. -/
def renderGroup (n : Nat) (g : MoveOperation × List MoveOperation) : String :=
  toString n ++ ". " ++ g.1.display_name ++ "\n   → " ++ target_display g.1.target_path
    ++ "\n" ++ String.join (g.2.map (fun op => "      + " ++ op.display_name ++ "\n"))

/-- Spec-side rendering of consecutive groups numbered from `n`. -/
def renderGroupsFrom : Nat → List (MoveOperation × List MoveOperation) → String
  | _, [] => ""
  | n, g :: rest => renderGroup n g ++ renderGroupsFrom (n + 1) rest

/-- Spec-side rendering of the whole plan from its group decomposition:
the first fifty groups numbered 1..50 in order, a truncation notice
beyond, then the unparseable section and the footer.  Rendering group `k`
under number `k` is the content of the numbering contract. -/
def formatViaGroups (plan : RestructurePlan)
    (groups : List (MoveOperation × List MoveOperation)) : String :=
  if plan.operations = [] ∧ plan.unparseable_files = [] then "✅ Nothing to restructure"
  else
    media_emoji plan.media_type ++ " Restructure Plan:\n\n"
      ++ (if groups.length ≤ 50 then renderGroupsFrom 1 groups
          else renderGroupsFrom 1 (groups.take 50)
            ++ "\n... and "
            ++ toString (((groups.drop 50).flatMap (fun g => g.1 :: g.2)).length)
            ++ " more operations (showing first 50)\n")
      ++ unparse_section plan.unparseable_files ++ reply_footer

/-- The C2 witness plan: two video groups, the first with one subtitle. -/
def c2_v1 : MoveOperation :=
  { source_path := "/dl/a.mkv", target_path := "/t/A/Season 01/A - S01E01.mkv",
    display_name := "a.mkv", is_subtitle := false }

def c2_s1 : MoveOperation :=
  { source_path := "/dl/a.en.srt", target_path := "/t/A/Season 01/a.en.srt",
    display_name := "a.en.srt", is_subtitle := true }

def c2_v2 : MoveOperation :=
  { source_path := "/dl/b.mkv", target_path := "/t/B/Season 01/B - S01E02.mkv",
    display_name := "b.mkv", is_subtitle := false }

def c2_plan : RestructurePlan :=
  { media_type := .tv, operations := [c2_v1, c2_s1, c2_v2], unparseable_files := [] }

/-! ## Helper lemmas -/

lemma string_data_eq_nil_iff {a : String} : a.data = [] ↔ a = "" := by
  constructor
  · intro h
    cases a with
    | mk d => cases h; rfl
  · intro h
    rw [h]

lemma data_append_eq (a b : String) : (a ++ b).data = a.data ++ b.data :=
  String.data_append a b

lemma digitChar_isDigit : ∀ m, m < 10 → (Nat.digitChar m).isDigit = true := by decide

lemma toDigitsCore_digits (fuel : Nat) :
    ∀ (n : Nat) (ds : List Char), (∀ c ∈ ds, c.isDigit = true) →
      ∀ c ∈ Nat.toDigitsCore 10 fuel n ds, c.isDigit = true := by
  induction fuel with
  | zero => intro n ds hds c hc; exact hds c hc
  | succ fuel ih =>
    intro n ds hds c hc
    rw [Nat.toDigitsCore] at hc
    have hd : (Nat.digitChar (n % 10)).isDigit = true :=
      digitChar_isDigit _ (Nat.mod_lt _ (by omega))
    by_cases h : n / 10 = 0
    · rw [if_pos h] at hc
      rcases List.mem_cons.1 hc with hc | hc
      · exact hc ▸ hd
      · exact hds c hc
    · rw [if_neg h] at hc
      refine ih _ _ ?_ c hc
      intro x hx
      rcases List.mem_cons.1 hx with hx | hx
      · exact hx ▸ hd
      · exact hds x hx

lemma toDigitsCore_ne_nil (fuel : Nat) :
    ∀ (n : Nat) (ds : List Char), fuel ≠ 0 → Nat.toDigitsCore 10 fuel n ds ≠ [] := by
  induction fuel with
  | zero => intro n ds h; exact absurd rfl h
  | succ fuel ih =>
    intro n ds _
    rw [Nat.toDigitsCore]
    by_cases h : n / 10 = 0
    · rw [if_pos h]; exact List.cons_ne_nil _ _
    · rw [if_neg h]
      by_cases hf : fuel = 0
      · subst hf; rw [Nat.toDigitsCore]; exact List.cons_ne_nil _ _
      · exact ih _ _ hf

lemma natRepr_digits (n : Nat) : ∀ c ∈ (Nat.repr n).data, c.isDigit = true := by
  intro c hc
  have : (Nat.repr n).data = Nat.toDigits 10 n := rfl
  rw [this] at hc
  exact toDigitsCore_digits _ _ _ (by intro x hx; cases hx) c hc

lemma natRepr_ne_nil (n : Nat) : (Nat.repr n).data ≠ [] := by
  have : (Nat.repr n).data = Nat.toDigits 10 n := rfl
  rw [this]
  exact toDigitsCore_ne_nil _ _ _ (Nat.succ_ne_zero n)

lemma isDigit_ne_slash {c : Char} (h : c.isDigit = true) : c ≠ '/' := by
  intro he; subst he; simp [Char.isDigit] at h

lemma pad2_data_digits (n : Nat) : ∀ c ∈ (pad2 n).data, c.isDigit = true := by
  intro c hc
  unfold pad2 at hc
  by_cases h : n < 10
  · rw [if_pos h, data_append_eq] at hc
    rcases List.mem_append.1 hc with hc | hc
    · have hz : c = '0' := by simpa using hc
      subst hz; decide
    · exact natRepr_digits n c hc
  · rw [if_neg h] at hc
    exact natRepr_digits n c hc

lemma pad2_data_ne_nil (n : Nat) : (pad2 n).data ≠ [] := by
  unfold pad2
  by_cases h : n < 10
  · rw [if_pos h, data_append_eq]; simp
  · rw [if_neg h]; exact natRepr_ne_nil n

lemma sanitize_data (t : String) :
    (sanitize_filename t).data = t.data.map (fun c =>
      if c = '/' ∨ c = '\\' ∨ c = ':' ∨ c = '*' ∨ c = '?' ∨ c = '"' ∨ c = '<' ∨ c = '>' ∨ c = '|'
      then '-' else c) := rfl

lemma sanitize_no_slash (t : String) : '/' ∉ (sanitize_filename t).data := by
  rw [sanitize_data]
  intro h
  rcases List.mem_map.1 h with ⟨c, _, hc⟩
  by_cases hb : c = '/' ∨ c = '\\' ∨ c = ':' ∨ c = '*' ∨ c = '?' ∨ c = '"' ∨ c = '<' ∨ c = '>' ∨ c = '|'
  · rw [if_pos hb] at hc; exact absurd hc (by decide)
  · rw [if_neg hb] at hc
    subst hc
    exact hb (Or.inl rfl)

lemma sanitize_ne_nil {t : String} (h : t ≠ "") : (sanitize_filename t).data ≠ [] := by
  rw [sanitize_data]
  intro hh
  exact h (string_data_eq_nil_iff.1 (List.map_eq_nil_iff.mp hh))

/-- `pathJoin` is plain slash concatenation whenever the left side is a
nonempty string without a trailing slash and the right side is not
absolute. -/
lemma pathJoin_eq (p q : String) (hq : q.data.head? ≠ some '/')
    (hp : p.data ≠ []) (hpl : p.data.getLast? ≠ some '/') :
    pathJoin p q = p ++ "/" ++ q := by
  unfold pathJoin
  rw [if_neg hq, if_neg hp, if_neg hpl]

lemma head?_ne_slash_of_no_slash {l : List Char} (h : '/' ∉ l) : l.head? ≠ some '/' := by
  intro hh
  cases l with
  | nil => cases hh
  | cons a l =>
    simp only [List.head?_cons, Option.some.injEq] at hh
    exact h (hh ▸ List.mem_cons_self a l)

lemma getLast?_ne_slash_of_no_slash {l : List Char} (h : '/' ∉ l) : l.getLast? ≠ some '/' := by
  intro hh
  rcases List.mem_getLast?_eq_getLast (Option.mem_def.2 hh) with ⟨hne, heq⟩
  exact h (heq ▸ List.getLast_mem hne)

lemma string_ext {a b : String} (h : a.data = b.data) : a = b := by
  cases a; cases b; cases h; rfl

lemma getLast?_ne_slash_of_all_digits {l : List Char} (h : ∀ c ∈ l, c.isDigit = true) :
    l.getLast? ≠ some '/' := by
  intro hh
  rcases List.mem_getLast?_eq_getLast (Option.mem_def.2 hh) with ⟨hne, heq⟩
  exact isDigit_ne_slash (h _ (List.getLast_mem hne)) heq.symm

/-! ## C3: TV path generation -/

/-- C3: for a well-formed base directory (nonempty, no trailing slash) and
a nonempty title, `generate_tv_path` yields
`\x7bbase\x7d/\x7bsanitized title\x7d/Season SS/\x7bsanitized title\x7d - SssTAG\x7bext\x7d` with
two-digit zero-padded season and episodes, the missing-season error when
the season is absent, and the missing-episode error when the episode list
is empty. -/
theorem c3_tv_path (base : String) (m : GuessitMetadata)
    (hbase : base ≠ "") (hslash : base.data.getLast? ≠ some '/')
    (htitle : m.title ≠ "") :
    (m.season = none → generate_tv_path base m = .error "TV show missing season number")
    ∧ (∀ s, m.season = some s → m.episodes = [] →
        generate_tv_path base m = .error "TV show missing episode number")
    ∧ (∀ s, m.season = some s → m.episodes ≠ [] →
        generate_tv_path base m = .ok (base ++ "/" ++ sanitize_filename m.title
          ++ "/" ++ "Season " ++ pad2 s
          ++ "/" ++ sanitize_filename m.title ++ " - S" ++ pad2 s
          ++ episodeTagSpec (sortNats m.episodes) ++ m.extension)) := by
  refine ⟨?_, ?_, ?_⟩
  · intro hs
    simp [generate_tv_path, hs]
  · intro s hs heps
    simp [generate_tv_path, hs, heps]
  · intro s hs heps
    have hne : m.episodes ≠ [] := heps
    set t := sanitize_filename m.title with ht
    have ht_nil : t.data ≠ [] := sanitize_ne_nil htitle
    have ht_slash : '/' ∉ t.data := sanitize_no_slash m.title
    have hbase_nil : base.data ≠ [] := fun h => hbase (string_data_eq_nil_iff.1 h)
    have j1 : pathJoin base t = base ++ "/" ++ t :=
      pathJoin_eq _ _ (head?_ne_slash_of_no_slash ht_slash) hbase_nil hslash
    have p1_nil : (base ++ "/" ++ t).data ≠ [] := by
      rw [data_append_eq]
      intro h
      exact ht_nil (List.append_eq_nil.1 h).2
    have p1_last : (base ++ "/" ++ t).data.getLast? ≠ some '/' := by
      rw [data_append_eq, List.getLast?_append_of_ne_nil _ ht_nil]
      exact getLast?_ne_slash_of_no_slash ht_slash
    have hseason_head : ("Season " ++ pad2 s).data.head? ≠ some '/' := by
      rw [data_append_eq]
      intro h
      simp at h
    have j2 : pathJoin (base ++ "/" ++ t) ("Season " ++ pad2 s)
        = base ++ "/" ++ t ++ "/" ++ ("Season " ++ pad2 s) :=
      pathJoin_eq _ _ hseason_head p1_nil p1_last
    have p2_nil : (base ++ "/" ++ t ++ "/" ++ ("Season " ++ pad2 s)).data ≠ [] := by
      rw [data_append_eq, data_append_eq]
      intro h
      have := (List.append_eq_nil.1 h).2
      rw [data_append_eq] at this
      exact pad2_data_ne_nil s (List.append_eq_nil.1 this).2
    have p2_last : (base ++ "/" ++ t ++ "/" ++ ("Season " ++ pad2 s)).data.getLast? ≠ some '/' := by
      rw [data_append_eq, data_append_eq,
        @List.getLast?_append_of_ne_nil Char _ (("Season " ++ pad2 s).data) ?_]
      · rw [data_append_eq, List.getLast?_append_of_ne_nil _ (pad2_data_ne_nil s)]
        exact getLast?_ne_slash_of_all_digits (pad2_data_digits s)
      · rw [data_append_eq]
        intro h
        exact pad2_data_ne_nil s (List.append_eq_nil.1 h).2
    have fname_head :
        (t ++ " - S" ++ pad2 s ++ episodeTagSpec (sortNats m.episodes) ++ m.extension).data.head?
          ≠ some '/' := by
      rw [data_append_eq, data_append_eq, data_append_eq, data_append_eq,
        List.append_assoc, List.append_assoc, List.append_assoc,
        List.head?_append_of_ne_nil _ ht_nil]
      exact head?_ne_slash_of_no_slash ht_slash
    have j3 : pathJoin (base ++ "/" ++ t ++ "/" ++ ("Season " ++ pad2 s))
        (t ++ " - S" ++ pad2 s ++ episodeTagSpec (sortNats m.episodes) ++ m.extension)
        = base ++ "/" ++ t ++ "/" ++ ("Season " ++ pad2 s) ++ "/"
          ++ (t ++ " - S" ++ pad2 s ++ episodeTagSpec (sortNats m.episodes) ++ m.extension) :=
      pathJoin_eq _ _ fname_head p2_nil p2_last
    have key : generate_tv_path base m
        = Except.ok (pathJoin (pathJoin (pathJoin base t) ("Season " ++ pad2 s))
            (t ++ " - S" ++ pad2 s ++ episodeTagSpec (sortNats m.episodes) ++ m.extension)) := by
      simp only [generate_tv_path, hs, if_neg hne, ht, episodeTagSpec, sortNats]
    rw [key, j1, j2, j3]
    apply congrArg
    apply string_ext
    simp [data_append_eq, List.append_assoc]

/-- C3 witness: concrete single-episode TV metadata hits the success
branch with the expected concrete path. -/
theorem c3_tv_path_witness :
    ("/media" : String) ≠ "" ∧ "/media".data.getLast? ≠ some '/'
    ∧ ("Show" : String) ≠ ""
    ∧ generate_tv_path "/media"
        { title := "Show", year := none, season := some 1,
          episode := some (.num (some 2)), extension := ".mkv" }
      = .ok ("/media" ++ "/" ++ sanitize_filename "Show" ++ "/" ++ "Season " ++ pad2 1
          ++ "/" ++ sanitize_filename "Show" ++ " - S" ++ pad2 1
          ++ episodeTagSpec (sortNats (GuessitMetadata.episodes
              { title := "Show", year := none, season := some 1,
                episode := some (.num (some 2)), extension := ".mkv" })) ++ ".mkv") :=
  ⟨by decide, by decide, by decide,
    (c3_tv_path "/media" _ (by decide) (by decide) (by decide)).2.2 1 rfl (by decide)⟩

/-! ## C4: collision resolution -/

lemma find?_first_true (p : Nat → Bool) :
    ∀ (n s j : Nat), s ≤ j → j < s + n → p j = true →
      (∀ i, s ≤ i → i < j → p i = false) →
      (List.range' s n).find? p = some j := by
  intro n
  induction n with
  | zero => intro s j h1 h2 _ _; omega
  | succ n ih =>
    intro s j h1 h2 hpj hmin
    rw [List.range'_succ]
    by_cases hs : j = s
    · subst hs
      exact List.find?_cons_of_pos _ hpj
    · have hfalse : p s = false := hmin s le_rfl (by omega)
      rw [List.find?_cons_of_neg _ (by simp [hfalse])]
      exact ih (s + 1) j (by omega) (by omega) hpj (fun i hi hij => hmin i (by omega) hij)

/-- C4 counterexample: with the target and all one hundred probe
candidates occupied, `resolve_collision` returns the original occupied
target, contradicting the claim that it never does. -/
theorem c4_counterexample :
    FSEnv.pathExists
        { files := "t.x" :: (List.range' 1 100).map (fun i => "t-" ++ toString i ++ ".x"),
          canonicalize := fun _ => none } "t.x" = true
    ∧ resolve_collision
        { files := "t.x" :: (List.range' 1 100).map (fun i => "t-" ++ toString i ++ ".x"),
          canonicalize := fun _ => none } "t.x" = "t.x" := by
  constructor
  · decide
  · decide

/-- C4 amended: an occupied target resolves to the first free candidate
`\x7bstem\x7d-\x7bi\x7d\x7bext\x7d` among `i = 1..100` in order, and falls back to the
original occupied target only when all hundred candidates are occupied. -/
theorem c4_resolve_collision (env : FSEnv) (target : String)
    (hocc : env.pathExists target = true) :
    (∀ j, 1 ≤ j → j ≤ 100 → env.pathExists (collisionCandidate target j) = false →
      (∀ i, 1 ≤ i → i < j → env.pathExists (collisionCandidate target i) = true) →
      resolve_collision env target = collisionCandidate target j)
    ∧ ((∀ i, 1 ≤ i → i ≤ 100 → env.pathExists (collisionCandidate target i) = true) →
      resolve_collision env target = target) := by
  constructor
  · intro j h1 h100 hfree hprev
    unfold resolve_collision
    rw [hocc, if_neg (by decide)]
    rw [find?_first_true _ 100 1 j h1 (by omega) (by simp [hfree])
      (fun i hi hij => by simp [hprev i hi hij])]
  · intro hall
    unfold resolve_collision
    rw [hocc, if_neg (by decide)]
    rw [List.find?_eq_none.2 ?_]
    intro x hx
    rcases List.mem_range'.1 hx with ⟨i, hi, rfl⟩
    have h := hall (1 + i) (by omega) (by omega)
    simp [h]

/-- C4 witness: a single occupied target with a free first candidate
resolves to `\x7bstem\x7d-1\x7bext\x7d`. -/
theorem c4_witness :
    FSEnv.pathExists { files := ["/d/a.txt"], canonicalize := fun _ => none } "/d/a.txt" = true
    ∧ FSEnv.pathExists { files := ["/d/a.txt"], canonicalize := fun _ => none }
        (collisionCandidate "/d/a.txt" 1) = false
    ∧ resolve_collision { files := ["/d/a.txt"], canonicalize := fun _ => none } "/d/a.txt"
        = collisionCandidate "/d/a.txt" 1 :=
  ⟨by decide, by decide,
    (c4_resolve_collision { files := ["/d/a.txt"], canonicalize := fun _ => none } "/d/a.txt"
        (by decide)).1 1 (by decide) (by decide) (by decide)
      (fun _ h1 h2 => absurd (Nat.lt_of_le_of_lt h1 h2) (Nat.lt_irrefl 1))⟩

/-! ## C5: subtitle matching -/

/-- C5 counterexample: a file with no extension at all whose name starts
with the video stem is matched, so "matched only if the extension is a
subtitle extension" fails. -/
theorem c5_counterexample :
    "/d/show" ∈ find_matching_subtitles
        { files := ["/d/show.mkv", "/d/show"], canonicalize := fun _ => none } "/d/show.mkv"
    ∧ extWithDot "/d/show" = none := by
  constructor
  · decide
  · decide

/-- C5 amended: a file of the video's parent directory is matched iff its
name starts with the video's stem and it either has no extension at all or
its dotted extension is a subtitle extension; a file with a non-subtitle
extension, or a mismatched stem, is never matched. -/
theorem c5_find_matching_subtitles (env : FSEnv) (video p par stem : String)
    (hpar : parentPath video = some par) (hstem : fileStem video = some stem) :
    p ∈ find_matching_subtitles env video ↔
      (p ∈ env.files ∧ parentPath p = some par
        ∧ (extWithDot p = none
            ∨ ∃ e, extWithDot p = some e ∧ SUBTITLE_EXTENSIONS.contains e = true)
        ∧ ∃ n, fileName p = some n ∧ stem.data.isPrefixOf n.data = true) := by
  unfold find_matching_subtitles
  rw [hpar, hstem]
  unfold sortStrings
  rw [List.mem_insertionSort, List.mem_filter]
  unfold FSEnv.readDirFiles
  rw [List.mem_filter]
  constructor
  · rintro ⟨⟨hmem, hp⟩, hkeep⟩
    rw [Bool.and_eq_true, Bool.and_eq_true] at hkeep
    obtain ⟨⟨hfile, hext⟩, hname⟩ := hkeep
    refine ⟨hmem, by simpa using hp, ?_, ?_⟩
    · rcases he : extWithDot p with _ | e
      · exact Or.inl rfl
      · rw [he] at hext
        exact Or.inr ⟨e, rfl, hext⟩
    · rcases hn : fileName p with _ | n
      · rw [hn] at hname
        cases hname
      · rw [hn] at hname
        exact ⟨n, rfl, hname⟩
  · rintro ⟨hmem, hp, hext, n, hn, hpre⟩
    refine ⟨⟨hmem, by simpa using hp⟩, ?_⟩
    rw [Bool.and_eq_true, Bool.and_eq_true]
    refine ⟨⟨?_, ?_⟩, ?_⟩
    · unfold FSEnv.isFile
      exact List.elem_eq_true_of_mem hmem
    · rcases hext with he | ⟨e, he, hc⟩
      · rw [he]
      · rw [he]
        exact hc
    · rw [hn]
      exact hpre

/-- C5 witness: a language-suffixed `.srt` companion in the same directory
is matched. -/
theorem c5_witness :
    parentPath "/d/show.mkv" = some "/d" ∧ fileStem "/d/show.mkv" = some "show"
    ∧ "/d/show.en.srt" ∈ find_matching_subtitles
        { files := ["/d/show.mkv", "/d/show.en.srt"], canonicalize := fun _ => none }
        "/d/show.mkv" :=
  ⟨by decide, by decide,
    (c5_find_matching_subtitles
        { files := ["/d/show.mkv", "/d/show.en.srt"], canonicalize := fun _ => none }
        "/d/show.mkv" "/d/show.en.srt" "/d" "show" (by decide) (by decide)).2
      ⟨by decide, by decide,
        Or.inr ⟨".srt", by decide, by decide⟩,
        "show.en.srt", by decide, by decide⟩⟩

/-! ## C6: the reply `apply 0` -/

/-- Index `0` never selects anything: the loop numbers videos starting
at `cur + 1 ≥ 1`. -/
lemma select_loop_zero (ops : List MoveOperation) :
    ∀ cur, (select_loop [0] ops cur false).1 = [] := by
  induction ops with
  | nil => intro cur; rfl
  | cons op rest ih =>
    intro cur
    simp only [select_loop]
    by_cases h : op.is_subtitle = true
    · rw [if_pos h]
      simp [ih cur]
    · rw [if_neg h]
      have hc : ([0] : List Nat).contains (cur + 1) = false := by simp
      simp only [hc, if_neg]
      simp [ih (cur + 1)]

/-- The concrete front half of `parse_restructure_reply "apply 0"`
computes to the selection loop with index set `\x5b0\x5d`. -/
lemma parse_apply0 (plan : RestructurePlan) :
    parse_restructure_reply "apply 0" plan
      = (if (select_loop [0] plan.operations 0 false).1 = [] then
           Except.error "No valid operations selected"
         else
           match [0].find? (fun idx => idx == 0
               || decide ((select_loop [0] plan.operations 0 false).2 < idx)) with
           | some idx =>
             Except.error ("Index " ++ toString idx ++ " out of range (1-"
               ++ toString (select_loop [0] plan.operations 0 false).2 ++ ")")
           | none => Except.ok (select_loop [0] plan.operations 0 false).1) := rfl

/-- C6 counterexample: on a one-video plan the reply `apply 0` fails with
the empty-selection error, not the index-out-of-range error the claim
names (the emptiness check precedes the range check in the source). -/
theorem c6_counterexample :
    parse_restructure_reply "apply 0"
        { media_type := .tv,
          operations := [{ source_path := "/d/a.mkv", target_path := "/t/a.mkv",
                           display_name := "a.mkv", is_subtitle := false }],
          unparseable_files := [] }
      = .error "No valid operations selected"
    ∧ parse_restructure_reply "apply 0"
        { media_type := .tv,
          operations := [{ source_path := "/d/a.mkv", target_path := "/t/a.mkv",
                           display_name := "a.mkv", is_subtitle := false }],
          unparseable_files := [] }
      ≠ .error "Index 0 out of range (1-1)" := by
  constructor
  · decide
  · decide

/-- C6 amended: for every non-empty plan, the reply `apply 0` fails with
the empty-selection error `No valid operations selected` (index 0 selects
nothing, and the emptiness check fires before the range check). -/
theorem c6_apply_zero (plan : RestructurePlan) (_h : plan.operations ≠ []) :
    parse_restructure_reply "apply 0" plan = .error "No valid operations selected" := by
  rw [parse_apply0, select_loop_zero plan.operations 0]
  rfl

/-- C6 witness: the amended statement at a concrete one-video plan. -/
theorem c6_witness :
    ({ media_type := .tv,
       operations := [{ source_path := "/w/b.mkv", target_path := "/t/b.mkv",
                        display_name := "b.mkv", is_subtitle := false }],
       unparseable_files := [] } : RestructurePlan).operations ≠ []
    ∧ parse_restructure_reply "apply 0"
        { media_type := .tv,
          operations := [{ source_path := "/w/b.mkv", target_path := "/t/b.mkv",
                           display_name := "b.mkv", is_subtitle := false }],
          unparseable_files := [] }
      = .error "No valid operations selected" :=
  ⟨by decide, c6_apply_zero _ (by decide)⟩

/-! ## C7: the video-with-subtitle scenario -/

/-- C7 counterexample: the built plan's two targets are the renamed video
and the subtitle under its ORIGINAL file name — not the
`Show - S01E01.en.srt` the claim expects. -/
theorem c7_counterexample :
    (generate_restructure_plan c7_env c7_oracle .tv "/dl").map
        (fun plan => plan.operations.map MoveOperation.target_path)
      = .ok ["/dl/Show/Season 01/Show - S01E01.mkv",
             "/dl/Show/Season 01/Show.S01E01.en.srt"]
    ∧ ("/dl/Show/Season 01/Show.S01E01.en.srt" : String)
        ≠ "/dl/Show/Season 01/Show - S01E01.en.srt" := by
  constructor
  · decide
  · decide

/-- C7 amended: the plan has exactly two operations, the video targeted at
`\x7bbase\x7d/Show/Season 01/Show - S01E01.mkv` and the subtitle, keeping its
original file name, targeted at
`\x7bbase\x7d/Show/Season 01/Show.S01E01.en.srt` in the video's target
directory. -/
theorem c7_plan_scenario :
    generate_restructure_plan c7_env c7_oracle .tv "/dl"
      = .ok { media_type := .tv,
              operations :=
                [{ source_path := "/dl/Show.S01E01.mkv",
                   target_path := "/dl/Show/Season 01/Show - S01E01.mkv",
                   display_name := "Show.S01E01.mkv", is_subtitle := false },
                 { source_path := "/dl/Show.S01E01.en.srt",
                   target_path := "/dl/Show/Season 01/Show.S01E01.en.srt",
                   display_name := "Show.S01E01.en.srt", is_subtitle := true }],
              unparseable_files := [] } := by
  decide

/-! ## The plan builder as a per-file decomposition (shared by C1, C8) -/

/-- The builder's fold is the concatenation of per-file operation lists
plus the per-file failures in order. -/
lemma foldl_plan_step (env : FSEnv) (oracle : String → Except String GuessitMetadata)
    (media : Media) (base : String) :
    ∀ (files : List String) (acc : List MoveOperation × List String),
      files.foldl (plan_step env oracle media base) acc
        = (acc.1 ++ files.flatMap (fun f => (file_plan_ops env oracle media base f).getD []),
           acc.2 ++ files.filter (fun f => (file_plan_ops env oracle media base f).isNone)) := by
  intro files
  induction files with
  | nil => intro acc; simp
  | cons f rest ih =>
    intro acc
    rw [List.foldl_cons, ih]
    unfold plan_step
    cases hf : file_plan_ops env oracle media base f with
    | none => simp [hf, List.filter_cons]
    | some ops => simp [hf, List.filter_cons, List.append_assoc]

lemma plan_from_files_eq (env : FSEnv) (oracle : String → Except String GuessitMetadata)
    (media : Media) (base : String) (files : List String) :
    plan_from_files env oracle media base files
      = { media_type := media,
          operations := files.flatMap (fun f => (file_plan_ops env oracle media base f).getD []),
          unparseable_files := files.filter (fun f => (file_plan_ops env oracle media base f).isNone) } := by
  unfold plan_from_files
  rw [foldl_plan_step]
  simp

/-- A successfully planned file contributes either nothing (idempotence
guard) or one video operation followed by only-subtitle operations. -/
lemma file_plan_ops_shape (env : FSEnv) (oracle : String → Except String GuessitMetadata)
    (media : Media) (base f : String) (ops : List MoveOperation)
    (h : file_plan_ops env oracle media base f = some ops) :
    ops = [] ∨ ∃ v subs, ops = v :: subs ∧ v.is_subtitle = false
      ∧ ∀ s ∈ subs, s.is_subtitle = true := by
  unfold file_plan_ops at h
  cases hg : call_guessit oracle f with
  | error e => rw [hg] at h; cases h
  | ok m =>
    simp only [hg] at h
    cases hm : gen_target_path media base m with
    | error e => simp only [hm] at h; cases h
    | ok tgt =>
      simp only [hm] at h
      by_cases hc : env.canonOr f = env.canonOr tgt
      · rw [if_pos hc] at h
        exact Or.inl (Option.some.inj h).symm
      · rw [if_neg hc] at h
        refine Or.inr ⟨_, _, (Option.some.inj h).symm, rfl, ?_⟩
        intro s hs
        rcases List.mem_map.1 hs with ⟨sub, _, rfl⟩
        rfl

/-- The flattened per-file contributions regroup into video-led groups. -/
lemma flatMap_groups (env : FSEnv) (oracle : String → Except String GuessitMetadata)
    (media : Media) (base : String) :
    ∀ files : List String,
      files.flatMap (fun f => (file_plan_ops env oracle media base f).getD [])
        = (files.filterMap (fun f =>
            match file_plan_ops env oracle media base f with
            | some (v :: subs) => some (v, subs)
            | _ => none)).flatMap (fun g => g.1 :: g.2) := by
  intro files
  induction files with
  | nil => rfl
  | cons f rest ih =>
    rw [List.flatMap_cons, List.filterMap_cons, ih]
    cases hf : file_plan_ops env oracle media base f with
    | none => simp
    | some ops =>
      cases ops with
      | nil => simp
      | cons v subs => simp

/-! ## C1: the grouping invariant -/

/-- C1: every plan built by `generate_restructure_plan` lists a video
operation first and is, as a whole, a concatenation of groups of one
non-subtitle video operation followed by its subtitle operations. -/
theorem c1_grouping (env : FSEnv) (oracle : String → Except String GuessitMetadata)
    (media : Media) (base : String) (plan : RestructurePlan)
    (h : generate_restructure_plan env oracle media base = .ok plan) :
    (∃ groups : List (MoveOperation × List MoveOperation),
      plan.operations = groups.flatMap (fun g => g.1 :: g.2)
      ∧ ∀ g ∈ groups, g.1.is_subtitle = false ∧ ∀ s ∈ g.2, s.is_subtitle = true)
    ∧ (∀ op rest, plan.operations = op :: rest → op.is_subtitle = false) := by
  unfold generate_restructure_plan at h
  cases hscan : scan_files_recursive env base VIDEO_EXTENSIONS with
  | error e => rw [hscan] at h; cases h
  | ok files =>
    simp only [hscan] at h
    have key : ∃ groups : List (MoveOperation × List MoveOperation),
        plan.operations = groups.flatMap (fun g => g.1 :: g.2)
        ∧ ∀ g ∈ groups, g.1.is_subtitle = false ∧ ∀ s ∈ g.2, s.is_subtitle = true := by
      by_cases hemp : files = []
      · rw [if_pos hemp] at h
        cases h
        exact ⟨[], rfl, by simp⟩
      · rw [if_neg hemp] at h
        cases h
        rw [plan_from_files_eq]
        refine ⟨files.filterMap (fun f =>
          match file_plan_ops env oracle media base f with
          | some (v :: subs) => some (v, subs)
          | _ => none), ?_, ?_⟩
        · exact flatMap_groups env oracle media base files
        · intro g hg
          rcases List.mem_filterMap.1 hg with ⟨f, _, hf⟩
          cases hops : file_plan_ops env oracle media base f with
          | none => rw [hops] at hf; cases hf
          | some ops =>
            rw [hops] at hf
            cases ops with
            | nil => cases hf
            | cons v subs =>
              cases hf
              rcases file_plan_ops_shape env oracle media base f _ hops with hnil | ⟨v2, s2, heq, hv, hs⟩
              · cases hnil
              · cases heq
                exact ⟨hv, hs⟩
    refine ⟨key, ?_⟩
    intro op rest hops
    rcases key with ⟨groups, hflat, hshape⟩
    rw [hops] at hflat
    cases groups with
    | nil => cases hflat
    | cons g gs =>
      rw [List.flatMap_cons, List.cons_append] at hflat
      have : op = g.1 := (List.cons.injEq _ _ _ _ ▸ hflat).1
      rw [this]
      exact (hshape g (List.mem_cons_self g gs)).1

/-- C1 witness: the grouping invariant holds of the concrete scenario
plan. -/
theorem c1_witness :
    (∃ groups : List (MoveOperation × List MoveOperation),
      ({ media_type := .tv,
         operations :=
           [{ source_path := "/dl/Show.S01E01.mkv",
              target_path := "/dl/Show/Season 01/Show - S01E01.mkv",
              display_name := "Show.S01E01.mkv", is_subtitle := false },
            { source_path := "/dl/Show.S01E01.en.srt",
              target_path := "/dl/Show/Season 01/Show.S01E01.en.srt",
              display_name := "Show.S01E01.en.srt", is_subtitle := true }],
         unparseable_files := [] } : RestructurePlan).operations
        = groups.flatMap (fun g => g.1 :: g.2)
      ∧ ∀ g ∈ groups, g.1.is_subtitle = false ∧ ∀ s ∈ g.2, s.is_subtitle = true)
    ∧ (∀ op rest,
        ({ media_type := .tv,
           operations :=
             [{ source_path := "/dl/Show.S01E01.mkv",
                target_path := "/dl/Show/Season 01/Show - S01E01.mkv",
                display_name := "Show.S01E01.mkv", is_subtitle := false },
              { source_path := "/dl/Show.S01E01.en.srt",
                target_path := "/dl/Show/Season 01/Show.S01E01.en.srt",
                display_name := "Show.S01E01.en.srt", is_subtitle := true }],
           unparseable_files := [] } : RestructurePlan).operations = op :: rest
        → op.is_subtitle = false) :=
  c1_grouping c7_env c7_oracle .tv "/dl" _ (by decide)

/-! ## C8: per-file error recovery -/

/-- C8: if the oracle fails on a scanned file, or path generation fails
for it, the built plan lists exactly that file among the unparseable
files, emits no operation for it, the whole build still succeeds, and the
operations are exactly the concatenated contributions of the other
files. -/
theorem c8_per_file_recovery (env : FSEnv) (oracle : String → Except String GuessitMetadata)
    (media : Media) (base : String) (files : List String) (f : String)
    (hscan : scan_files_recursive env base VIDEO_EXTENSIONS = .ok files)
    (hmem : f ∈ files)
    (hfail : (∃ e, call_guessit oracle f = .error e)
      ∨ (∃ m, call_guessit oracle f = .ok m
          ∧ ∃ e, gen_target_path media base m = .error e)) :
    ∃ plan, generate_restructure_plan env oracle media base = .ok plan
      ∧ f ∈ plan.unparseable_files
      ∧ file_plan_ops env oracle media base f = none
      ∧ plan.operations
          = files.flatMap (fun g => (file_plan_ops env oracle media base g).getD [])
      ∧ plan.unparseable_files
          = files.filter (fun g => (file_plan_ops env oracle media base g).isNone) := by
  have hnone : file_plan_ops env oracle media base f = none := by
    unfold file_plan_ops
    rcases hfail with ⟨e, he⟩ | ⟨m, hm, e, he⟩
    · rw [he]
    · simp only [hm, he]
  have hnotnil : files ≠ [] := fun hh => by rw [hh] at hmem; cases hmem
  refine ⟨plan_from_files env oracle media base files, ?_, ?_, hnone, ?_, ?_⟩
  · unfold generate_restructure_plan
    simp only [hscan]
    rw [if_neg hnotnil]
  · rw [plan_from_files_eq]
    exact List.mem_filter.2 ⟨hmem, by simp [hnone]⟩
  · rw [plan_from_files_eq]
  · rw [plan_from_files_eq]

/-- C8 witness: in the concrete scenario the timed-out file is recovered
into `unparseable_files` while the other file still produces its
operation. -/
theorem c8_witness :
    scan_files_recursive c8_env "/dl" VIDEO_EXTENSIONS = .ok c8_files
    ∧ "/dl/Bad.File.mkv" ∈ c8_files
    ∧ call_guessit c8_oracle "/dl/Bad.File.mkv"
        = .error "guessit command timed out after 5 seconds"
    ∧ (∃ plan, generate_restructure_plan c8_env c8_oracle .tv "/dl" = .ok plan
        ∧ "/dl/Bad.File.mkv" ∈ plan.unparseable_files
        ∧ file_plan_ops c8_env c8_oracle .tv "/dl" "/dl/Bad.File.mkv" = none
        ∧ plan.operations
            = c8_files.flatMap (fun g => (file_plan_ops c8_env c8_oracle .tv "/dl" g).getD [])
        ∧ plan.unparseable_files
            = c8_files.filter (fun g => (file_plan_ops c8_env c8_oracle .tv "/dl" g).isNone)) :=
  ⟨by decide, by decide, by decide,
    c8_per_file_recovery c8_env c8_oracle .tv "/dl" c8_files "/dl/Bad.File.mkv"
      (by decide) (by decide)
      (Or.inl ⟨"guessit command timed out after 5 seconds", by decide⟩)⟩

/-! ## C9: best-effort execution -/

/-- The executor's fold visits every operation and aggregates every
per-operation outcome, regardless of earlier failures. -/
lemma foldl_execute_step (sys : MoveOperation → SysCall) :
    ∀ (ops : List MoveOperation) (acc : Nat × List String),
      ops.foldl (execute_step sys) acc
        = (acc.1 + (ops.map (fun op => (exec_op sys op).1)).sum,
           acc.2 ++ ops.flatMap (fun op => (exec_op sys op).2)) := by
  intro ops
  induction ops with
  | nil => intro acc; simp
  | cons op rest ih =>
    intro acc
    rw [List.foldl_cons]
    rw [ih]
    unfold execute_step
    simp [Nat.add_assoc, List.append_assoc]

/-- C9: `execute_moves` attempts every operation (the outcome aggregates
each operation's individual result over the whole list), returns the
success variant with the successes/total summary when at least one
operation succeeded and the hard-failure variant with the same summary
otherwise; a copy that succeeds but whose source deletion fails counts as
its own error line and not as a success. -/
theorem c9_execute_moves (sys : MoveOperation → SysCall) (ops : List MoveOperation) :
    (execute_moves sys ops
      = (if (ops.map (fun op => (exec_op sys op).1)).sum = 0 then
          Except.error (exec_summary ((ops.map (fun op => (exec_op sys op).1)).sum)
            ops.length (ops.flatMap (fun op => (exec_op sys op).2)))
        else
          Except.ok (exec_summary ((ops.map (fun op => (exec_op sys op).1)).sum)
            ops.length (ops.flatMap (fun op => (exec_op sys op).2)))))
    ∧ (∀ op msg d, (sys op).mkdir = .ok () → (sys op).rename = .err true msg
        → (sys op).copy = .ok () → (sys op).remove = .error d
        → exec_op sys op
            = (0, [op.display_name ++ ": Copied but failed to delete source - " ++ d])) := by
  constructor
  · unfold execute_moves
    rw [foldl_execute_step]
    simp
  · intro op msg d hmk hrn hcp hrm
    unfold exec_op
    cases hpar : parentPath op.target_path with
    | none => simp only [hpar, hrn, hcp, hrm, if_pos]
    | some p => simp only [hpar, hmk, hrn, hcp, hrm, if_pos]

/-- C9 witness: on the two concrete operations the run aggregates both
outcomes, and the copied-but-not-deleted operation contributes its own
error line and no success. -/
theorem c9_witness :
    (execute_moves c9_sys [c9_opA, c9_opB]
      = (if (([c9_opA, c9_opB].map (fun op => (exec_op c9_sys op).1)).sum) = 0 then
          Except.error (exec_summary (([c9_opA, c9_opB].map (fun op => (exec_op c9_sys op).1)).sum)
            ([c9_opA, c9_opB].length) ([c9_opA, c9_opB].flatMap (fun op => (exec_op c9_sys op).2)))
        else
          Except.ok (exec_summary (([c9_opA, c9_opB].map (fun op => (exec_op c9_sys op).1)).sum)
            ([c9_opA, c9_opB].length) ([c9_opA, c9_opB].flatMap (fun op => (exec_op c9_sys op).2)))))
    ∧ exec_op c9_sys c9_opB
        = (0, ["b.mkv" ++ ": Copied but failed to delete source - " ++ "permission denied"]) :=
  ⟨(c9_execute_moves c9_sys [c9_opA, c9_opB]).1,
    (c9_execute_moves c9_sys [c9_opA, c9_opB]).2 c9_opB "cross-device link" "permission denied"
      (by decide) (by decide) (by decide) (by decide)⟩

/-! ## C2: the presenter/interpreter numbering contract -/

/-- A contiguous run of subtitle operations is swallowed whole by the
selection loop: kept when the current group is selected, dropped
otherwise, without advancing the video counter. -/
lemma select_loop_subs (indices : List Nat) (subs : List MoveOperation)
    (h : ∀ x ∈ subs, x.is_subtitle = true) :
    ∀ (l : List MoveOperation) (cur : Nat) (t : Bool),
      select_loop indices (subs ++ l) cur t
        = ((if t then subs else []) ++ (select_loop indices l cur t).1,
           (select_loop indices l cur t).2) := by
  induction subs with
  | nil => intro l cur t; simp
  | cons x xs ih =>
    intro l cur t
    rw [List.cons_append]
    simp only [select_loop, h x (List.mem_cons_self x xs)]
    rw [ih (fun y hy => h y (List.mem_cons_of_mem x hy)) l cur t]
    cases t with
    | true => simp
    | false => simp

/-- The selection loop over a grouped operation list selects exactly the
requested groups and counts one video per group. -/
lemma select_loop_groups (indices : List Nat) :
    ∀ (groups : List (MoveOperation × List MoveOperation)),
      (∀ g ∈ groups, g.1.is_subtitle = false ∧ ∀ x ∈ g.2, x.is_subtitle = true) →
      ∀ (cur : Nat) (t : Bool),
        select_loop indices (groups.flatMap (fun g => g.1 :: g.2)) cur t
          = (selectedGroups indices groups cur, cur + groups.length) := by
  intro groups
  induction groups with
  | nil => intro _ cur t; simp [select_loop, selectedGroups]
  | cons g gs ih =>
    intro h cur t
    have hg := h g (List.mem_cons_self g gs)
    rw [List.flatMap_cons, List.cons_append]
    simp only [select_loop, hg.1, Bool.false_eq_true, if_false]
    rw [select_loop_subs indices g.2 hg.2]
    rw [ih (fun x hx => h x (List.mem_cons_of_mem g hx)) (cur + 1)]
    simp only [selectedGroups]
    cases hc : indices.contains (cur + 1) with
    | true => simp [List.length_cons]; omega
    | false => simp [List.length_cons]; omega

/-- With only index `k` requested and every group number beyond `k`, the
selection is empty. -/
lemma selectedGroups_past (k : Nat) :
    ∀ (groups : List (MoveOperation × List MoveOperation)) (cur : Nat),
      k ≤ cur → selectedGroups [k] groups cur = [] := by
  intro groups
  induction groups with
  | nil => intro cur _; rfl
  | cons g gs ih =>
    intro cur hk
    unfold selectedGroups
    have hc : ([k] : List Nat).contains (cur + 1) = false := by
      simp
      omega
    rw [hc]
    simp [ih (cur + 1) (by omega)]

/-- With only index `k` requested and `cur < k ≤ cur + |groups|`, the
selection is exactly the flattened `k - cur`-th group. -/
lemma selectedGroups_single (k : Nat) :
    ∀ (groups : List (MoveOperation × List MoveOperation)) (cur : Nat),
      cur < k → k ≤ cur + groups.length →
      ∃ g, groups[k - cur - 1]? = some g
        ∧ selectedGroups [k] groups cur = g.1 :: g.2 := by
  intro groups
  induction groups with
  | nil => intro cur h1 h2; simp at h2; omega
  | cons g gs ih =>
    intro cur h1 h2
    unfold selectedGroups
    by_cases hk : k = cur + 1
    · have hc : ([k] : List Nat).contains (cur + 1) = true := by
        simp [hk]
      rw [hc]
      refine ⟨g, ?_, ?_⟩
      · have : k - cur - 1 = 0 := by omega
        rw [this]
        simp
      · simp [selectedGroups_past k gs (cur + 1) (by omega)]
    · have hc : ([k] : List Nat).contains (cur + 1) = false := by
        simp
        omega
      rw [hc]
      rcases ih (cur + 1) (by omega) (by simp at h2 ⊢; omega) with ⟨g2, hget, hsel⟩
      refine ⟨g2, ?_, by simpa using hsel⟩
      have harith : k - cur - 1 = (k - (cur + 1) - 1) + 1 := by omega
      rw [harith]
      simpa using hget

lemma str_append_assoc (a b c : String) : a ++ b ++ c = a ++ (b ++ c) := by
  apply string_ext
  simp [data_append_eq, List.append_assoc]

lemma str_foldl_append (l : List String) :
    ∀ a : String, l.foldl (· ++ ·) a = a ++ l.foldl (· ++ ·) "" := by
  induction l with
  | nil =>
    intro a
    simp [String.append_empty]
  | cons x xs ih =>
    intro a
    rw [List.foldl_cons, List.foldl_cons, ih (a ++ x), ih ("" ++ x), String.empty_append,
      str_append_assoc]

lemma str_join_cons (s : String) (l : List String) :
    String.join (s :: l) = s ++ String.join l := by
  show (s :: l).foldl (· ++ ·) "" = s ++ l.foldl (· ++ ·) ""
  rw [List.foldl_cons, String.empty_append, str_foldl_append]

/-- The presenter renders a contiguous subtitle run as its indented lines
when a numbered video entry was just emitted. -/
lemma format_ops_subs (subs : List MoveOperation) (h : ∀ x ∈ subs, x.is_subtitle = true) :
    ∀ (l : List MoveOperation) (cur : Nat),
      format_ops (subs ++ l) cur true
        = String.join (subs.map (fun op => "      + " ++ op.display_name ++ "\n"))
          ++ format_ops l cur true := by
  induction subs with
  | nil =>
    intro l cur
    rw [List.nil_append, List.map_nil]
    rw [show String.join [] = "" from rfl, String.empty_append]
  | cons x xs ih =>
    intro l cur
    rw [List.cons_append]
    simp only [format_ops, h x (List.mem_cons_self x xs), if_pos]
    rw [ih (fun y hy => h y (List.mem_cons_of_mem x hy)) l cur]
    rw [List.map_cons, str_join_cons]
    simp only [str_append_assoc]

/-- The presenter's loop over a grouped operation list renders the groups
in order under numbers `cur + 1`, `cur + 2`, ..., truncating once the
fiftieth numbered entry has been rendered. -/
lemma format_ops_groups :
    ∀ (groups : List (MoveOperation × List MoveOperation)),
      (∀ g ∈ groups, g.1.is_subtitle = false ∧ ∀ x ∈ g.2, x.is_subtitle = true) →
      ∀ (cur : Nat) (t : Bool),
        format_ops (groups.flatMap (fun g => g.1 :: g.2)) cur t
          = if groups.length ≤ 50 - cur then renderGroupsFrom (cur + 1) groups
            else renderGroupsFrom (cur + 1) (groups.take (50 - cur))
              ++ "\n... and "
              ++ toString (((groups.drop (50 - cur)).flatMap (fun g => g.1 :: g.2)).length)
              ++ " more operations (showing first 50)\n" := by
  intro groups
  induction groups with
  | nil =>
    intro _ cur t
    rw [if_pos (by simp)]
    rfl
  | cons g gs ih =>
    intro h cur t
    have hg := h g (List.mem_cons_self g gs)
    rw [List.flatMap_cons, List.cons_append]
    simp only [format_ops, hg.1, Bool.false_eq_true, if_false]
    by_cases h50 : cur + 1 > 50
    · rw [if_pos h50]
      rw [if_neg (by simp; omega)]
      have hz : 50 - cur = 0 := by omega
      rw [hz, List.take_zero, List.drop_zero]
      rw [show renderGroupsFrom (cur + 1) [] = "" from rfl, String.empty_append]
      have hlen : ((g :: gs).flatMap (fun g => g.1 :: g.2)).length
          = (g.2 ++ gs.flatMap (fun g => g.1 :: g.2)).length + 1 := by
        simp
      rw [hlen]
    · rw [if_neg h50]
      rw [format_ops_subs g.2 hg.2]
      rw [ih (fun x hx => h x (List.mem_cons_of_mem g hx)) (cur + 1) true]
      have harith : 50 - cur = (50 - (cur + 1)) + 1 := by omega
      by_cases hlen : gs.length ≤ 50 - (cur + 1)
      · rw [if_pos hlen, if_pos (by simp; omega)]
        simp only [renderGroupsFrom, renderGroup, str_append_assoc]
      · rw [if_neg hlen, if_neg (by simp; omega)]
        rw [harith, List.take_succ_cons, List.drop_succ_cons]
        simp only [renderGroupsFrom, renderGroup, str_append_assoc]

/-- Under the grouping decomposition the presenter's output is exactly the
spec-side group rendering: group `k` appears under number `k`. -/
lemma format_plan_groups (plan : RestructurePlan)
    (groups : List (MoveOperation × List MoveOperation))
    (hflat : plan.operations = groups.flatMap (fun g => g.1 :: g.2))
    (hshape : ∀ g ∈ groups, g.1.is_subtitle = false ∧ ∀ x ∈ g.2, x.is_subtitle = true) :
    format_restructure_plan plan = formatViaGroups plan groups := by
  unfold format_restructure_plan formatViaGroups
  by_cases hnil : plan.operations = [] ∧ plan.unparseable_files = []
  · rw [if_pos hnil, if_pos hnil]
  · rw [if_neg hnil, if_neg hnil]
    rw [hflat, format_ops_groups groups hshape 0 false]

/-- Decomposition of a token accepted by `parseUsize`: an optional `+`
followed by a nonempty run of ASCII digits. -/
lemma parseUsize_shape {tok : List Char} {k : Nat} (h : parseUsize tok = some k) :
    ∃ ds, (tok = ds ∨ tok = '+' :: ds) ∧ ds ≠ [] ∧ ∀ c ∈ ds, isDigitChar c = true := by
  simp only [parseUsize] at h
  by_cases hp : tok.head? = some '+'
  · rw [if_pos hp] at h
    by_cases hnil : tok.tail = []
    · rw [if_pos hnil] at h; cases h
    · rw [if_neg hnil] at h
      by_cases hall : tok.tail.all isDigitChar = true
      · refine ⟨tok.tail, Or.inr ?_, hnil, fun c hc => (List.all_eq_true.1 hall) c hc⟩
        cases tok with
        | nil => exact absurd hp (by decide)
        | cons c r =>
          simp only [List.head?_cons, Option.some.injEq] at hp
          rw [hp]
          rfl
      · rw [if_neg hall] at h; cases h
  · rw [if_neg hp] at h
    by_cases hnil : tok = []
    · rw [if_pos hnil] at h; cases h
    · rw [if_neg hnil] at h
      by_cases hall : tok.all isDigitChar = true
      · exact ⟨tok, Or.inl rfl, hnil, fun c hc => (List.all_eq_true.1 hall) c hc⟩
      · rw [if_neg hall] at h; cases h

lemma parseUsize_mem {tok : List Char} {k : Nat} (h : parseUsize tok = some k) :
    ∀ c ∈ tok, c = '+' ∨ isDigitChar c = true := by
  rcases parseUsize_shape h with ⟨ds, hds, _, hd⟩
  intro c hc
  rcases hds with rfl | rfl
  · exact Or.inr (hd c hc)
  · rcases List.mem_cons.1 hc with rfl | hc2
    · exact Or.inl rfl
    · exact Or.inr (hd c hc2)

lemma parseUsize_tok_ne_nil {tok : List Char} {k : Nat} (h : parseUsize tok = some k) :
    tok ≠ [] := by
  rcases parseUsize_shape h with ⟨ds, hds, h1, _⟩
  rcases hds with rfl | rfl
  · exact h1
  · exact List.cons_ne_nil _ _

lemma parseUsize_last {tok : List Char} {k : Nat} (h : parseUsize tok = some k) :
    ∃ c, tok.getLast? = some c ∧ isDigitChar c = true := by
  rcases parseUsize_shape h with ⟨ds, hds, h1, hd⟩
  have hlast : ∃ c, ds.getLast? = some c ∧ isDigitChar c = true :=
    ⟨ds.getLast h1, List.getLast?_eq_getLast_of_ne_nil h1, hd _ (List.getLast_mem h1)⟩
  rcases hds with rfl | rfl
  · exact hlast
  · rcases hlast with ⟨c, hc, hcd⟩
    refine ⟨c, ?_, hcd⟩
    rw [show ('+' :: ds : List Char) = ['+'] ++ ds from rfl,
      List.getLast?_append_of_ne_nil _ h1]
    exact hc

lemma digit_not_ws {c : Char} (hd : isDigitChar c = true) : isWS c = false := by
  simp only [isWS, Bool.or_eq_false_iff, beq_eq_false_iff_ne, ne_eq]
  refine ⟨⟨⟨fun he => ?_, fun he => ?_⟩, fun he => ?_⟩, fun he => ?_⟩ <;>
    (subst he; exact absurd hd (by decide))

lemma digit_lower {c : Char} (hd : isDigitChar c = true) : lowerChar c = c := by
  simp only [isDigitChar, Bool.and_eq_true, decide_eq_true_eq] at hd
  unfold lowerChar
  rw [if_neg]
  rintro ⟨hA, _⟩
  omega

lemma tok_not_ws {tok : List Char} {k : Nat} (h : parseUsize tok = some k) :
    ∀ c ∈ tok, isWS c = false := by
  intro c hc
  rcases parseUsize_mem h c hc with rfl | hd
  · decide
  · exact digit_not_ws hd

lemma tok_lower {tok : List Char} {k : Nat} (h : parseUsize tok = some k) :
    ∀ c ∈ tok, lowerChar c = c := by
  intro c hc
  rcases parseUsize_mem h c hc with rfl | hd
  · decide
  · exact digit_lower hd

/-- Trimming is the identity on a list that starts and ends with
non-whitespace. -/
lemma trimChars_of_ends {l : List Char}
    (hh : ∃ c t, l = c :: t ∧ isWS c = false)
    (hl : ∃ c, l.getLast? = some c ∧ isWS c = false) : trimChars l = l := by
  unfold trimChars
  rcases hh with ⟨c, t, rfl, hcf⟩
  rw [List.dropWhile_cons, hcf]
  simp only [Bool.false_eq_true, if_false]
  rcases hl with ⟨d, hd, hdf⟩
  have hrev : (c :: t).reverse.head? = some d := by
    rw [List.head?_reverse]
    exact hd
  have hcons := List.eq_cons_of_mem_head? (Option.mem_def.2 hrev)
  rw [hcons, List.dropWhile_cons, hdf]
  simp only [Bool.false_eq_true, if_false]
  rw [← hcons, List.reverse_reverse]

lemma trimChars_no_ws {l : List Char} (h : ∀ c ∈ l, isWS c = false) : trimChars l = l := by
  cases l with
  | nil => rfl
  | cons c t =>
    refine trimChars_of_ends ⟨c, t, rfl, h c (List.mem_cons_self c t)⟩ ?_
    have hne : (c :: t : List Char) ≠ [] := List.cons_ne_nil _ _
    refine ⟨(c :: t).getLast hne, List.getLast?_eq_getLast_of_ne_nil hne,
      h _ (List.getLast_mem hne)⟩

lemma lowerChars_no_upper {l : List Char} (h : ∀ c ∈ l, lowerChar c = c) :
    lowerChars l = l := by
  unfold lowerChars
  rw [List.map_congr_left h, List.map_id']

lemma splitWSAux_no_ws :
    ∀ (l acc : List Char), (∀ c ∈ l, isWS c = false) →
      splitWSAux l acc = if acc = [] ∧ l = [] then [] else [acc.reverse ++ l] := by
  intro l
  induction l with
  | nil =>
    intro acc _
    by_cases ha : acc = [] <;> simp [splitWSAux, ha]
  | cons c r ih =>
    intro acc h
    unfold splitWSAux
    rw [h c (List.mem_cons_self c r)]
    simp only [Bool.false_eq_true, if_false]
    rw [ih (c :: acc) (fun x hx => h x (List.mem_cons_of_mem c hx))]
    rw [if_neg (by rintro ⟨h1, _⟩; exact List.cons_ne_nil _ _ h1),
      if_neg (by rintro ⟨_, h2⟩; exact List.cons_ne_nil _ _ h2)]
    simp [List.append_assoc]

lemma splitWS_single {l : List Char} (hne : l ≠ []) (h : ∀ c ∈ l, isWS c = false) :
    splitWS l = [l] := by
  unfold splitWS
  rw [splitWSAux_no_ws l [] h, if_neg (by rintro ⟨_, h2⟩; exact hne h2)]
  rfl

lemma isPrefixOf_append_self : ∀ (l r : List Char), l.isPrefixOf (l ++ r) = true := by
  intro l r
  induction l with
  | nil => simp [List.isPrefixOf]
  | cons c t ih => simp [List.isPrefixOf, ih]

/-- The interpreter on the reply `apply` followed by a numeral token for
`k` returns exactly the flattened `k`-th group of a grouped plan. -/
lemma parse_apply_index (plan : RestructurePlan)
    (groups : List (MoveOperation × List MoveOperation)) (k : Nat) (s : String)
    (hflat : plan.operations = groups.flatMap (fun g => g.1 :: g.2))
    (hshape : ∀ g ∈ groups, g.1.is_subtitle = false ∧ ∀ x ∈ g.2, x.is_subtitle = true)
    (h1 : 1 ≤ k) (h2 : k ≤ groups.length)
    (hs : parseUsize s.data = some k) :
    ∃ g, groups[k - 1]? = some g
      ∧ parse_restructure_reply ("apply " ++ s) plan = .ok (g.1 :: g.2) := by
  obtain ⟨g, hget, hsel⟩ := selectedGroups_single k groups 0 (by omega) (by omega)
  have hget' : groups[k - 1]? = some g := by simpa using hget
  refine ⟨g, hget', ?_⟩
  have hne : s.data ≠ [] := parseUsize_tok_ne_nil hs
  have hproc : lowerChars (trimChars ("apply " ++ s).data) = "apply ".data ++ s.data := by
    rw [show ("apply " ++ s).data = 'a' :: ("pply ".data ++ s.data) from by
      rw [data_append_eq, show ("apply ".data : List Char) = 'a' :: "pply ".data from rfl,
        List.cons_append]]
    rw [trimChars_of_ends ⟨'a', "pply ".data ++ s.data, rfl, by decide⟩ ?hlast]
    case hlast =>
      rcases parseUsize_last hs with ⟨c, hc, hcd⟩
      refine ⟨c, ?_, digit_not_ws hcd⟩
      rw [show ('a' :: ("pply ".data ++ s.data) : List Char)
          = "apply ".data ++ s.data from rfl,
        List.getLast?_append_of_ne_nil _ hne]
      exact hc
    rw [show ('a' :: ("pply ".data ++ s.data) : List Char)
        = "apply ".data ++ s.data from rfl]
    unfold lowerChars
    rw [List.map_append]
    rw [show List.map lowerChar "apply ".data = "apply ".data from by decide]
    rw [List.map_congr_left (tok_lower hs), List.map_id']
  simp only [parse_restructure_reply]
  rw [hproc]
  rw [if_neg ?hcancel]
  case hcancel =>
    intro heq
    rw [show ("apply ".data ++ s.data : List Char)
        = 'a' :: ("pply ".data ++ s.data) from rfl] at heq
    simp at heq
  rw [if_neg (not_or.2 ⟨?hall, ?happly⟩)]
  case hall =>
    intro heq
    have h6 := congrArg (List.drop 6) heq
    rw [List.drop_left' (by decide : ("apply ".data : List Char).length = 6)] at h6
    have hmem := parseUsize_mem hs 'a' (by rw [h6]; decide)
    rcases hmem with hplus | hdig
    · exact absurd hplus (by decide)
    · exact absurd hdig (by decide)
  case happly =>
    intro heq
    have hlen := congrArg List.length heq
    rw [List.length_append] at hlen
    simp at hlen
    omega
  rw [if_pos (isPrefixOf_append_self "apply ".data s.data)]
  have hdrop : ("apply ".data ++ s.data).drop 6 = s.data :=
    List.drop_left' (by decide)
  rw [hdrop, trimChars_no_ws (tok_not_ws hs), splitWS_single hne (tok_not_ws hs)]
  simp only [parseTokens, hs, Except.map]
  rw [show sortNats [k] = [k] from by simp [sortNats],
    show dedupConsec [k] = [k] from rfl]
  rw [hflat, select_loop_groups [k] groups hshape 0 false, hsel]
  rw [if_neg (List.cons_ne_nil _ _)]
  have hfind : ([k] : List Nat).find? (fun idx => idx == 0 || decide (0 + groups.length < idx))
      = none := by
    rw [List.find?_cons_of_neg _ (by simp; omega)]
    rfl
  rw [hfind]

/-! ## C2: the numbering contract, stated -/

/-- C2: for every plan satisfying the grouping invariant (operations are
the flattened `groups`) and every `k` from 1 to the number of video
operations, the reply `apply` followed by any numeral token for `k`
selects exactly the `k`-th group — the very group the presenter renders
under number `k`, as witnessed by the presenter's output being the
spec-side per-group rendering that numbers group `k` with `k`. -/
theorem c2_numbering_contract (plan : RestructurePlan)
    (groups : List (MoveOperation × List MoveOperation)) (k : Nat) (s : String)
    (hflat : plan.operations = groups.flatMap (fun g => g.1 :: g.2))
    (hshape : ∀ g ∈ groups, g.1.is_subtitle = false ∧ ∀ x ∈ g.2, x.is_subtitle = true)
    (h1 : 1 ≤ k) (h2 : k ≤ groups.length)
    (hs : parseUsize s.data = some k) :
    ∃ g, groups[k - 1]? = some g
      ∧ parse_restructure_reply ("apply " ++ s) plan = .ok (g.1 :: g.2)
      ∧ format_restructure_plan plan = formatViaGroups plan groups := by
  obtain ⟨g, hget, hparse⟩ := parse_apply_index plan groups k s hflat hshape h1 h2 hs
  exact ⟨g, hget, hparse, format_plan_groups plan groups hflat hshape⟩

/-- C2 witness: on the concrete two-group plan, `apply 2` selects exactly
group 2 and the rendering decomposes by groups. -/
theorem c2_witness :
    ∃ g, ([(c2_v1, [c2_s1]), (c2_v2, [])] :
        List (MoveOperation × List MoveOperation))[2 - 1]? = some g
      ∧ parse_restructure_reply ("apply " ++ "2") c2_plan = .ok (g.1 :: g.2)
      ∧ format_restructure_plan c2_plan
          = formatViaGroups c2_plan [(c2_v1, [c2_s1]), (c2_v2, [])] :=
  c2_numbering_contract c2_plan [(c2_v1, [c2_s1]), (c2_v2, [])] 2 "2"
    (by decide) (by decide) (by decide) (by decide) (by decide)

/-! ## C10: executing an empty operation list -/

/-- C10: `execute_moves` on the empty operation list returns the
hard-failure variant carrying a 0/0 summary. -/
theorem c10_execute_moves_empty (sys : MoveOperation → SysCall) :
    execute_moves sys [] = .error "✅ Restructuring complete!\n• 0/0 files moved" := by
  simp [execute_moves, exec_summary]
  rfl

example : parentPath "/dl/Show.mkv" = some "/dl" := by decide
example : fileName "/dl/Show.S01E01.mkv" = some "Show.S01E01.mkv" := by decide
example : fileStem "/dl/Show.S01E01.mkv" = some "Show.S01E01" := by decide
example : extWithDot "/dl/Show.S01E01.mkv" = some ".mkv" := by decide
example : extOf "/d/noext" = none := by decide
example : splitAtLastDot ".hidden".data = (".hidden".data, none) := by decide
example : pathJoin "/dl" "Show" = "/dl/Show" := by decide
example : parentPath "a" = some "" := by decide
example : parentPath "/a" = some "/" := by decide
example : parseUsize "12".data = some 12 := by decide
example : parseUsize "+3".data = some 3 := by decide
example : parseUsize "x3".data = none := by decide
example : splitWS "  12  7 ".data = ["12".data, "7".data] := by decide
example : trimChars " ab ".data = "ab".data := by decide
